import Mathlib

/-!
Verification development for the gemelli CTF pipeline
(`gemelli/ctf.py` and `gemelli/scripts/_standalone_transforms.py`).

The Python code is shallowly embedded: the biom count table becomes
`BTable` (feature rows by sample columns of natural-number counts),
pandas data frames become `Frame` over a `Cell` type with an explicit
missing value, and the in-place mutation of the caller's table is made
visible by returning the final table state alongside the result.
External collaborators that are not part of the two files (the tensor
builder, the factorization engine) appear as an opaque-to-the-model
`fit` parameter of the pipeline runner.
-/

namespace Gemelli

/-- A cell of a pandas data frame: missing (NaN), a number, or a string. -/
inductive Cell where
  | na : Cell
  | num : Rat → Cell
  | str : String → Cell
deriving DecidableEq, Repr

/-- Keep the elements of `l` whose mask bit is `true`
(the elementwise boolean-mask selection pandas/biom use). -/
def maskFilter {α : Type} (l : List α) (mask : List Bool) : List α :=
  (l.zip mask).filterMap (fun p => if p.2 then some p.1 else none)

/-- The biom count table: rows are features, columns are samples
(`table.ids('observation')` / `table.ids('sample')`),
`data` is the dense count matrix, one inner list per feature row. -/
structure BTable where
  fids : List String
  sids : List String
  data : List (List Nat)
deriving DecidableEq, Repr

namespace BTable

/-- Well-formed: the matrix is rectangular with one row per feature
and one entry per sample. -/
def WF (t : BTable) : Prop :=
  t.data.length = t.fids.length ∧ ∀ r ∈ t.data, r.length = t.sids.length

instance (t : BTable) : Decidable t.WF := by
  unfold WF; infer_instance

/-- `table.filter(keep, axis='sample', inplace=True)`:
keep only the columns whose sample id is in `keep`, in table order. -/
def filterSamplesBy (t : BTable) (mask : List Bool) : BTable :=
  { fids := t.fids
    sids := maskFilter t.sids mask
    data := t.data.map (fun row => maskFilter row mask) }

def filterSamples (t : BTable) (keep : List String) : BTable :=
  t.filterSamplesBy (t.sids.map (fun s => keep.contains s))

/-- `table.filter(keep, axis='observation', inplace=True)`:
keep only the rows whose feature id is in `keep`, in table order. -/
def filterFeaturesBy (t : BTable) (mask : List Bool) : BTable :=
  { fids := maskFilter t.fids mask
    sids := t.sids
    data := maskFilter t.data mask }

def filterFeatures (t : BTable) (keep : List String) : BTable :=
  t.filterFeaturesBy (t.fids.map (fun f => keep.contains f))

/-- `table.sum('sample')`: per-sample (column) totals, in column order. -/
def sampleSums (t : BTable) : List Nat :=
  (List.range t.sids.length).map
    (fun j => (t.data.map (fun row => row.getD j 0)).sum)

/-- `table.sum('observation')`: per-feature (row) totals, in row order. -/
def featureSums (t : BTable) : List Nat :=
  t.data.map (fun row => row.sum)

end BTable

/-- `table.filter(table.ids(axis)[table.sum(axis) >= min_sum], ...)` for
`axis='sample'` then `axis='observation'` (lines 124-129 of ctf.py). -/
def countFilter (t : BTable) (minSampleCount minFeatureCount : Nat) : BTable :=
  let t1 := t.filterSamplesBy (t.sampleSums.map (fun s => decide (minSampleCount ≤ s)))
  t1.filterFeaturesBy (t1.featureSums.map (fun s => decide (minFeatureCount ≤ s)))

/-- Error message of line 98 of ctf.py. -/
def dupSampleMsg : String := "Data-table contains duplicate sample IDs"

/-- Error message of line 100 of ctf.py. -/
def dupFeatureMsg : String := "Data-table contains duplicate feature IDs"

/-- Error message of lines 108-111 of ctf.py (empty feature-id intersection). -/
def emptyFeatureIntersectionMsg : String :=
  "No more features left.  Check to make sure that the sample names between `feature-metadata` and `table` are consistent"

/-- Error message of lines 115-117 of ctf.py (empty sample-id intersection). -/
def emptySampleIntersectionMsg : String :=
  "No more features left.  Check to make sure that the sample names between `sample-metadata` and `table` are consistent"

/-- Lines 118-129 of ctf.py once validation has passed: filter the table's
samples to the metadata intersection, then apply the minimum-count filters
(samples first, then observations, matching the `zip` order). -/
def ctfAlignFilter (t : BTable) (smdIds : List String)
    (minSampleCount minFeatureCount : Nat) : BTable :=
  countFilter (t.filterSamples smdIds) minSampleCount minFeatureCount

/-- The alignment-and-filtering stage of `ctf_helper` (lines 94-129):
duplicate-id validation, id intersection with the sample metadata index
(and the feature metadata index when supplied), in-place filtering of the
table to the intersections, then minimum-count filtering.

Returned pair: the stage's `Except` result and the state of the caller's
table object after the stage (the filters run with `inplace=True`, so on
success the caller's object holds the fully filtered table; on an early
validation error it is untouched). -/
def ctfAlignStage (t : BTable) (smdIds : List String)
    (fmdIds : Option (List String)) (minSampleCount minFeatureCount : Nat) :
    Except String BTable × BTable :=
  if ¬ t.sids.Nodup then (.error dupSampleMsg, t)
  else if ¬ t.fids.Nodup then (.error dupFeatureMsg, t)
  else match fmdIds with
  | some fm =>
      if t.fids.filter (fun f => fm.contains f) = [] then
        (.error emptyFeatureIntersectionMsg, t)
      else if t.sids.filter (fun s => smdIds.contains s) = [] then
        (.error emptySampleIntersectionMsg, t)
      else
        let t3 := ctfAlignFilter (t.filterFeatures fm) smdIds
          minSampleCount minFeatureCount
        (.ok t3, t3)
  | none =>
      if t.sids.filter (fun s => smdIds.contains s) = [] then
        (.error emptySampleIntersectionMsg, t)
      else
        let t3 := ctfAlignFilter t smdIds minSampleCount minFeatureCount
        (.ok t3, t3)

/-- The table `ctf_helper` leaves in the caller's variable when the
alignment stage succeeds: the composition of the intersection filters and
the minimum-count filters applied to the original table. -/
def alignedFilteredTable (t : BTable) (smdIds : List String)
    (fmdIds : Option (List String)) (minSampleCount minFeatureCount : Nat) :
    BTable :=
  match fmdIds with
  | some fm =>
      ctfAlignFilter (t.filterFeatures fm) smdIds minSampleCount minFeatureCount
  | none => ctfAlignFilter t smdIds minSampleCount minFeatureCount

/-- `ctf_helper` from the table's point of view: after the alignment stage
succeeds, the remaining pipeline (tensor build, rclr, factorization,
labeling, output assembly — external code, abstracted as `fit`) consumes
the filtered table; an alignment error short-circuits everything. -/
def ctfHelperRun {R : Type} (t : BTable) (smdIds : List String)
    (fmdIds : Option (List String)) (minSampleCount minFeatureCount : Nat)
    (fit : BTable → R) : Except String R × BTable :=
  match ctfAlignStage t smdIds fmdIds minSampleCount minFeatureCount with
  | (.error e, tc) => (.error e, tc)
  | (.ok t3, tc) => (.ok (fit t3), tc)

/-! ### Sample-metadata columns (ctf.py lines 65-88) -/

/-- An auxiliary sample-metadata column: its label, whether its pandas
dtype is `bool`, and its cells. -/
structure MetaCol where
  label : String
  isBoolDtype : Bool
  values : List Cell
deriving DecidableEq, Repr

/-- `all_sample_metadata.eq('True').any(axis=0)` for one column. -/
def MetaCol.hasTrueString (c : MetaCol) : Bool :=
  c.values.contains (Cell.str "True")

/-- `all_sample_metadata.eq('False').any(axis=0)` for one column. -/
def MetaCol.hasFalseString (c : MetaCol) : Bool :=
  c.values.contains (Cell.str "False")

/-- Lines 70-78 of ctf.py (raw-DataFrame branch): first drop every column
of `bool` dtype, then drop each remaining column where
`.eq('True').any()` differs from `.eq('False').any()`. -/
def dropBoolLikeCols (cols : List MetaCol) : List MetaCol :=
  let cols1 := cols.filter (fun c => ! c.isBoolDtype)
  cols1.filter (fun c => ! (c.hasTrueString != c.hasFalseString))

/-- Lines 81-88 of ctf.py (pre-validated Metadata branch): the auxiliary
columns are split off unchanged — nothing is dropped. -/
def auxColsMetadataPath (cols : List MetaCol) : List MetaCol := cols

/-! ### Data frames (loading tables, trajectories) -/

/-- A pandas data frame: named index, column labels, rectangular rows. -/
structure Frame where
  indexName : String
  index : List String
  cols : List String
  rows : List (List Cell)
deriving DecidableEq, Repr

namespace Frame

/-- `df['PC3'] = [0] * len(df.index)`: append an all-zero column. -/
def addZeroCol (f : Frame) (name : String) : Frame :=
  { f with cols := f.cols ++ [name]
           rows := f.rows.map (fun r => r ++ [Cell.num 0]) }

/-- `df[cs]`: select the columns labelled `cs`, in that order (meaningful
when every label of `cs` occurs in `f.cols`, as at every use site). -/
def selectCols (f : Frame) (cs : List String) : Frame :=
  { indexName := f.indexName
    index := f.index
    cols := cs
    rows := f.rows.map (fun r => cs.map (fun c => r.getD (f.cols.indexOf c) Cell.na)) }

/-- `df.dropna(axis=0)`: drop every row containing a missing value. -/
def dropNaRows (f : Frame) : Frame :=
  { indexName := f.indexName
    index := maskFilter f.index (f.rows.map (fun r => ! r.contains Cell.na))
    cols := f.cols
    rows := maskFilter f.rows (f.rows.map (fun r => ! r.contains Cell.na)) }

/-- `df.reindex(target)` for a frame with a unique index: one row per
target id — the frame's row when the id is present, else all-NaN. -/
def reindexTo (f : Frame) (target : List String) : Frame :=
  { indexName := f.indexName
    index := target
    cols := f.cols
    rows := target.map (fun i =>
      if f.index.contains i then
        f.rows.getD (f.index.indexOf i) (f.cols.map (fun _ => Cell.na))
      else f.cols.map (fun _ => Cell.na)) }

/-- `concat([a, b], axis=1, sort=True)` for frames sharing the same row
index labels (as at the use site, where `a` was just reindexed to `b`'s
index): with `sort=True` pandas sorts the non-concatenation axis — the row
index — even when the indexes are already aligned, and realigns both
frames' rows to the sorted label order before joining them positionally. -/
def hconcat (a b : Frame) : Frame :=
  let sortedIdx := List.insertionSort (· ≤ ·) a.index
  { indexName := a.indexName
    index := sortedIdx
    cols := a.cols ++ b.cols
    rows := sortedIdx.map (fun i =>
      a.rows.getD (a.index.indexOf i) (a.cols.map (fun _ => Cell.na))
      ++ b.rows.getD (b.index.indexOf i) (b.cols.map (fun _ => Cell.na))) }

/-- `df.dropna(subset=cs)`: drop rows with a missing value in a column of
`cs`. -/
def dropNaSubset (f : Frame) (cs : List String) : Frame :=
  let keep := f.rows.map
    (fun r => cs.all (fun c => ! (r.getD (f.cols.indexOf c) Cell.na == Cell.na)))
  { indexName := f.indexName
    index := maskFilter f.index keep
    cols := f.cols
    rows := maskFilter f.rows keep }

/-- `df.index.name = n`. -/
def withIndexName (f : Frame) (n : String) : Frame := { f with indexName := n }

/-- Modelled from the spec for C5 only: `de-duplicated` — remove every row
whose cell values already occurred in an earlier row (the code has no
counterpart of this operation). -/
def dedupRows (f : Frame) : Frame :=
  let keep := (List.range f.rows.length).map
    (fun i => ! (f.rows.take i).contains (f.rows.getD i []))
  { indexName := f.indexName
    index := maskFilter f.index keep
    cols := f.cols
    rows := maskFilter f.rows keep }

end Frame

/-! ### The PC3 special case and the ordination package
(ctf.py lines 150-171) -/

/-- `'PC%i' % (i+1)` labels: the principal-coordinate columns the
factorization produces for a requested number of components. -/
def pcCols (n : Nat) : List String :=
  (List.range n).map (fun i => "PC" ++ toString (i + 1))

/-- The labeled factorization output `TF` used by the packaging code:
subject loadings, feature loadings, proportion explained and eigenvalues
(the latter two keyed by axis label, as pandas `.loc` rows). -/
structure TFLabeled where
  subjects : Frame
  features : Frame
  propExp : List (String × Rat)
  eigvals : List (String × Rat)
deriving DecidableEq, Repr

/-- `v.loc['PC3', :] = 0`: overwrite the labelled entry when present,
otherwise append it. -/
def seriesSetLoc (s : List (String × Rat)) (lab : String) (v : Rat) :
    List (String × Rat) :=
  if (s.map Prod.fst).contains lab then
    s.map (fun p => if p.1 = lab then (p.1, v) else p)
  else s ++ [(lab, v)]

/-- Lines 150-158 of ctf.py: if exactly two components were requested,
append an all-zero `PC3` axis to subjects, features, proportion explained
and eigenvalues; otherwise leave everything unchanged. -/
def addPC3IfTwo (nComponents : Nat) (tf : TFLabeled) : TFLabeled :=
  if nComponents = 2 then
    { subjects := tf.subjects.addZeroCol "PC3"
      features := tf.features.addZeroCol "PC3"
      propExp := seriesSetLoc tf.propExp "PC3" 0
      eigvals := seriesSetLoc tf.eigvals "PC3" 0 }
  else tf

/-- `'PC' in col` (Python substring containment). -/
def containsSubstrPC (col : String) : Bool :=
  decide ("PC".toList <:+: col.toList)

/-- Line 164: `keep_PC = [col for col in TF.features.columns if 'PC' in col]`
(computed from the feature loading columns, applied to both tables). -/
def keepPC (featureCols : List String) : List String :=
  featureCols.filter containsSubstrPC

/-- The skbio `OrdinationResults` contents assembled on lines 165-171. -/
structure Ordination where
  eigvals : List (String × Rat)
  samples : Frame
  features : Frame
  propExp : List (String × Rat)
deriving DecidableEq, Repr

/-- Lines 160-171 of ctf.py: the ordination package — eigenvalues and
proportion explained as produced, the two loading tables restricted to the
`keep_PC` columns and with NaN-containing rows dropped (no other
processing). -/
def makeOrdination (tf : TFLabeled) : Ordination :=
  let kp := keepPC tf.features.cols
  { eigvals := tf.eigvals
    samples := (tf.subjects.selectCols kp).dropNaRows
    features := (tf.features.selectCols kp).dropNaRows
    propExp := tf.propExp }

/-! ### Per-state distance-matrix slicing (ctf.py lines 181-188) -/

/-- The running rebuild of `dict((ind, ind_i) for ind_i, ind in
enumerate(ids))` looked up at `x`: scan with the enumeration counter `i`,
a later occurrence of `x` overwriting the stored position `acc`. -/
def lastIndexOfAux (x : String) : List String → Nat → Nat → Nat
  | [], _, acc => acc
  | a :: tl, i, acc => lastIndexOfAux x tl (i + 1) (if a == x then i else acc)

/-- The position the enumeration dict of line 183 stores for `x`. -/
def lastIndexOf (ids : List String) (x : String) : Nat :=
  lastIndexOfAux x ids 0 0

/-- Lines 182-185: the sorted positions (through the id→position dict) of
the trajectory ids also present in the retained sample metadata. -/
def sliceIndices (strajIds mdIds : List String) : List Nat :=
  List.insertionSort (· ≤ ·)
    ((strajIds.dedup.filter (fun x => mdIds.contains x)).map
      (fun x => lastIndexOf strajIds x))

/-- Line 186: `dist = dist[indices, :][:, indices]`. -/
def sliceDistanceMatrix (dist : List (List Rat))
    (strajIds mdIds : List String) : List (List Rat) :=
  (sliceIndices strajIds mdIds).map (fun i =>
    (sliceIndices strajIds mdIds).map (fun j => (dist.getD i []).getD j 0))

/-- Line 188: `ids=ids[indices]`, the id list paired with the sliced
distance matrix. -/
def sliceDistanceIds (strajIds mdIds : List String) : List String :=
  (sliceIndices strajIds mdIds).map (fun i => strajIds.getD i "")

/-! ### Trajectory assembly (ctf.py lines 189-202) -/

/-- Lines 192-198: re-align the subject trajectory to the auxiliary
metadata index, join the metadata columns, drop subjects lacking a
trajectory value, and name the index `#SampleID`. -/
def mergeTrajectory (straj aux : Frame) : Frame :=
  (((straj.reindexTo aux.index).hconcat aux).dropNaSubset
    straj.cols).withIndexName "#SampleID"

/-- A feature-trajectory index label before `astype(str)`: pandas indexes
may hold numbers or strings. -/
inductive FeatLabel where
  | num : Nat → FeatLabel
  | str : String → FeatLabel
deriving DecidableEq, Repr

/-- `str(x)` on an index label. -/
def FeatLabel.toStr : FeatLabel → String
  | .num n => toString n
  | .str s => s

/-- Line 201: `ftraj.index = ftraj.index.astype(str)`. -/
def astypeStrIndex (idx : List FeatLabel) : List String :=
  idx.map FeatLabel.toStr

/-! ### The phylogenetic-rclr subcommand
(_standalone_transforms.py lines 12-56) -/

/-- The Python identifier click derives for an option name: strip the
leading dashes, replace the remaining dashes by underscores. -/
def clickParamName (opt : String) : String :=
  String.mk ((opt.toList.dropWhile (fun c => c = '-')).map
    (fun c => if c = '-' then '_' else c))

/-- The options declared on the `phylogenetic-rclr` command
(lines 13-21). -/
def phyloRclrOptionDecls : List String :=
  ["--in-biom", "--in-phylogeny", "--output-dir"]

/-- The parameters of `standalone_phylogenetic_rclr` (lines 22-24). -/
def phyloRclrFnParams : List String := ["in_biom", "in_tree", "output_dir"]

/-- Python keyword-argument binding: a keyword argument whose name is not
among the function's parameters raises `TypeError` before the body runs. -/
def bindKwargs (params : List String) (kwargs : List (String × String)) :
    Except String (List (String × String)) :=
  match kwargs.find? (fun kv => ! params.contains kv.1) with
  | some kv => .error ("TypeError: unexpected keyword argument " ++ kv.1)
  | none => .ok kwargs

/-- Invoking `gemelli phylogenetic-rclr` with values for its three options:
click binds each option's derived identifier to the given value and calls
the function with those keyword arguments. -/
def invokePhylogeneticRclr (biomPath treePath outDir : String) :
    Except String (List (String × String)) :=
  bindKwargs phyloRclrFnParams
    (List.zip (phyloRclrOptionDecls.map clickParamName)
      [biomPath, treePath, outDir])

/-- Modelled from the spec for C5 only: the ordination packaging as §4.4
describes it, with each loading table additionally de-duplicated (the code
has no de-duplication step). -/
def makeOrdinationSpecC5 (tf : TFLabeled) : Ordination :=
  let kp := keepPC tf.features.cols
  { eigvals := tf.eigvals
    samples := ((tf.subjects.selectCols kp).dedupRows).dropNaRows
    features := ((tf.features.selectCols kp).dedupRows).dropNaRows
    propExp := tf.propExp }

/-- A labeled factorization output whose subject loadings contain two
identical rows (two subjects with equal coordinates — numerically
unremarkable and perfectly legal). -/
def tfDupRowsExample : TFLabeled :=
  { subjects := Frame.mk "" ["a", "b"] ["PC1", "PC2"]
      [[Cell.num 1, Cell.num 2], [Cell.num 1, Cell.num 2]]
    features := Frame.mk "" ["x"] ["PC1", "PC2"] [[Cell.num 5, Cell.num 6]]
    propExp := [("PC1", 3/5), ("PC2", 2/5)]
    eigvals := [("PC1", 3), ("PC2", 2)] }

/-- A concrete two-component labeled factorization output, used to
instantiate the PC3 special case. -/
def tfExample : TFLabeled :=
  { subjects := Frame.mk "" ["a", "b"] ["PC1", "PC2"]
      [[Cell.num 1, Cell.num 2], [Cell.num 3, Cell.num 4]]
    features := Frame.mk "" ["x"] ["PC1", "PC2"] [[Cell.num 5, Cell.num 6]]
    propExp := [("PC1", 3/5), ("PC2", 2/5)]
    eigvals := [("PC1", 3), ("PC2", 2)] }

/-! ### Basic lemmas about mask filtering -/

theorem maskFilter_all_true {α : Type} :
    ∀ (l : List α) (mask : List Bool), l.length ≤ mask.length →
      (∀ b ∈ mask, b = true) → maskFilter l mask = l := by
  intro l
  induction l with
  | nil => intro mask _ _; rfl
  | cons a l ih =>
    intro mask hlen hall
    cases mask with
    | nil => simp at hlen
    | cons b mask =>
      have hb : b = true := hall b (by simp)
      simp only [maskFilter, List.zip_cons_cons, List.filterMap_cons, hb,
        if_true]
      have := ih mask (by simpa using Nat.le_of_succ_le_succ hlen)
        (fun b hbm => hall b (by simp [hbm]))
      simpa [maskFilter] using this

theorem mem_of_mem_maskFilter {α : Type} {x : α} {l : List α}
    {mask : List Bool} (h : x ∈ maskFilter l mask) : x ∈ l := by
  simp only [maskFilter, List.mem_filterMap] at h
  obtain ⟨⟨a, b⟩, hmem, hab⟩ := h
  cases b with
  | true => simp at hab; subst hab; exact (List.of_mem_zip hmem).1
  | false => simp at hab

theorem maskFilter_map {α : Type} (l : List α) (f : α → Bool) :
    maskFilter l (l.map f) = l.filter f := by
  induction l with
  | nil => rfl
  | cons a l ih =>
    cases h : f a <;>
      simp only [maskFilter, List.map_cons, List.zip_cons_cons,
        List.filterMap_cons, h, List.filter_cons] <;>
      simpa [maskFilter] using ih

theorem maskFilter_map_map {α γ : Type} (g : α → γ) (q : α → Bool) :
    ∀ l : List α, maskFilter (l.map g) (l.map q) = (l.filter q).map g := by
  intro l
  induction l with
  | nil => rfl
  | cons a tl ih =>
    cases h : q a <;>
      simp only [maskFilter, List.map_cons, List.zip_cons_cons,
        List.filterMap_cons, h, List.filter_cons] <;>
      simpa [maskFilter] using ih

theorem indexOf_append_left {c : String} :
    ∀ (l1 l2 : List String), c ∈ l1 →
      (l1 ++ l2).indexOf c = l1.indexOf c := by
  intro l1
  induction l1 with
  | nil => intro l2 h; cases h
  | cons b tl ih =>
    intro l2 h
    rw [List.cons_append, List.indexOf_cons, List.indexOf_cons]
    cases hbc : (b == c) with
    | true => rfl
    | false =>
      simp only [Bool.cond_false]
      have hc : c ∈ tl := by
        rcases List.mem_cons.mp h with h1 | h1
        · exact absurd h1.symm (beq_eq_false_iff_ne.mp hbc)
        · exact h1
      rw [ih l2 hc]

theorem getD_map_indexOf {α : Type} (l : List String) (f : String → α)
    (i : String) (d : α) (h : i ∈ l) :
    (l.map f).getD (l.indexOf i) d = f i := by
  have hlt : l.indexOf i < l.length := List.indexOf_lt_length.mpr h
  rw [List.getD_eq_getElem _ _ (by simpa using hlt)]
  simp [List.getElem_map, List.getElem_indexOf]

/-! ### Lemmas about the table filters -/

namespace BTable

theorem filterSamplesBy_all_true (t : BTable) (hwf : t.WF)
    (mask : List Bool) (hlen : t.sids.length ≤ mask.length)
    (hall : ∀ b ∈ mask, b = true) : t.filterSamplesBy mask = t := by
  obtain ⟨_, hrl⟩ := hwf
  cases t with
  | mk fids sids data =>
    simp only [filterSamplesBy, mk.injEq, true_and]
    refine ⟨maskFilter_all_true _ _ hlen hall, ?_⟩
    have : ∀ r ∈ data, maskFilter r mask = r := by
      intro r hr
      exact maskFilter_all_true _ _ (by rw [hrl r hr]; exact hlen) hall
    calc data.map (fun row => maskFilter row mask)
        = data.map id := List.map_congr_left this
      _ = data := List.map_id data

theorem filterFeaturesBy_all_true (t : BTable) (hwf : t.WF)
    (mask : List Bool) (hlen : t.fids.length ≤ mask.length)
    (hall : ∀ b ∈ mask, b = true) : t.filterFeaturesBy mask = t := by
  obtain ⟨hdl, _⟩ := hwf
  cases t with
  | mk fids sids data =>
    simp only [filterFeaturesBy, mk.injEq, true_and]
    exact ⟨maskFilter_all_true _ _ hlen hall,
      maskFilter_all_true _ _ (by simp_all) hall⟩

theorem filterSamples_of_all_kept (t : BTable) (hwf : t.WF)
    (keep : List String) (hsub : ∀ s ∈ t.sids, keep.contains s = true) :
    t.filterSamples keep = t := by
  apply filterSamplesBy_all_true t hwf _ (by simp)
  intro b hb
  obtain ⟨s, hs, rfl⟩ := List.mem_map.mp hb
  exact hsub s hs

theorem filterFeatures_of_all_kept (t : BTable) (hwf : t.WF)
    (keep : List String) (hsub : ∀ f ∈ t.fids, keep.contains f = true) :
    t.filterFeatures keep = t := by
  apply filterFeaturesBy_all_true t hwf _ (by simp)
  intro b hb
  obtain ⟨f, hf, rfl⟩ := List.mem_map.mp hb
  exact hsub f hf

theorem filterSamples_sids (t : BTable) (keep : List String) :
    (t.filterSamples keep).sids
      = t.sids.filter (fun s => keep.contains s) := by
  simp [filterSamples, filterSamplesBy, maskFilter_map]

theorem filterFeatures_fids (t : BTable) (keep : List String) :
    (t.filterFeatures keep).fids
      = t.fids.filter (fun f => keep.contains f) := by
  simp [filterFeatures, filterFeaturesBy, maskFilter_map]

end BTable

theorem countFilter_all_pass (t : BTable) (hwf : t.WF)
    (ms mf : Nat)
    (hms : ∀ c ∈ t.sampleSums, ms ≤ c)
    (hmf : ∀ c ∈ t.featureSums, mf ≤ c) : countFilter t ms mf = t := by
  have hlen1 : t.sids.length ≤ t.sampleSums.length := by
    simp [BTable.sampleSums]
  have h1 : t.filterSamplesBy (t.sampleSums.map (fun s => decide (ms ≤ s)))
      = t := by
    apply t.filterSamplesBy_all_true hwf _ (by simpa using hlen1)
    intro b hb
    obtain ⟨c, hc, rfl⟩ := List.mem_map.mp hb
    simpa using hms c hc
  have hlen2 : t.fids.length ≤ t.featureSums.length := by
    simp [BTable.featureSums, hwf.1]
  simp only [countFilter, h1]
  apply t.filterFeaturesBy_all_true hwf _ (by simpa using hlen2)
  intro b hb
  obtain ⟨c, hc, rfl⟩ := List.mem_map.mp hb
  simpa using hmf c hc

theorem countFilter_sids_subset {s : String} {t : BTable} {ms mf : Nat}
    (h : s ∈ (countFilter t ms mf).sids) : s ∈ t.sids := by
  simp only [countFilter, BTable.filterFeaturesBy, BTable.filterSamplesBy]
    at h
  exact mem_of_mem_maskFilter h

theorem countFilter_fids_subset {f : String} {t : BTable} {ms mf : Nat}
    (h : f ∈ (countFilter t ms mf).fids) : f ∈ t.fids := by
  simp only [countFilter, BTable.filterFeaturesBy, BTable.filterSamplesBy]
    at h
  exact mem_of_mem_maskFilter h

theorem ctfHelperRun_error {R : Type} {t : BTable} {smdIds : List String}
    {fmdIds : Option (List String)} {ms mf : Nat} {fit : BTable → R}
    {e : String}
    (he : (ctfHelperRun t smdIds fmdIds ms mf fit).1 = Except.error e) :
    (ctfAlignStage t smdIds fmdIds ms mf).1 = Except.error e := by
  unfold ctfHelperRun at he
  rcases hst : ctfAlignStage t smdIds fmdIds ms mf with ⟨r, tc⟩
  rw [hst] at he
  cases r with
  | error e2 => simpa using he
  | ok t3 => simp at he

theorem ctfAlignStage_none_eq (t : BTable) (smdIds : List String)
    (ms mf : Nat) (hs : t.sids.Nodup) (hf : t.fids.Nodup) :
    ctfAlignStage t smdIds none ms mf =
      if t.sids.filter (fun s => smdIds.contains s) = [] then
        (Except.error emptySampleIntersectionMsg, t)
      else (Except.ok (ctfAlignFilter t smdIds ms mf),
            ctfAlignFilter t smdIds ms mf) := by
  unfold ctfAlignStage
  rw [if_neg (not_not_intro hs), if_neg (not_not_intro hf)]

theorem ctfAlignStage_some_eq (t : BTable) (smdIds fm : List String)
    (ms mf : Nat) (hs : t.sids.Nodup) (hf : t.fids.Nodup) :
    ctfAlignStage t smdIds (some fm) ms mf =
      if t.fids.filter (fun f => fm.contains f) = [] then
        (Except.error emptyFeatureIntersectionMsg, t)
      else if t.sids.filter (fun s => smdIds.contains s) = [] then
        (Except.error emptySampleIntersectionMsg, t)
      else (Except.ok (ctfAlignFilter (t.filterFeatures fm) smdIds ms mf),
            ctfAlignFilter (t.filterFeatures fm) smdIds ms mf) := by
  unfold ctfAlignStage
  rw [if_neg (not_not_intro hs), if_neg (not_not_intro hf)]

/-! ### Claim C2: empty sample-id intersection fails fast -/

set_option maxRecDepth 8192 in
/-- C2: when the intersection of the table's sample ids with the
sample-metadata index is empty (and the earlier validations pass),
`ctf_helper` raises the input-validity error of lines 114-117, whose
message names the `sample-metadata` and `table` id-sets; the pipeline
never reaches the tensor build or factorization (the result is the same
for every downstream `fit`), and the caller's table is untouched. -/
theorem ctf_c2_empty_sample_intersection_fails {R : Type} (t : BTable)
    (smdIds : List String) (fmdIds : Option (List String)) (ms mf : Nat)
    (fit : BTable → R)
    (hsnd : t.sids.Nodup) (hfnd : t.fids.Nodup)
    (hfne : ∀ fm, fmdIds = some fm →
      t.fids.filter (fun f => fm.contains f) ≠ [])
    (hempty : t.sids.filter (fun s => smdIds.contains s) = []) :
    ctfHelperRun t smdIds fmdIds ms mf fit
        = (Except.error emptySampleIntersectionMsg, t) ∧
    "sample-metadata".toList <:+: emptySampleIntersectionMsg.toList ∧
    "table".toList <:+: emptySampleIntersectionMsg.toList := by
  have hstage : ctfAlignStage t smdIds fmdIds ms mf
      = (Except.error emptySampleIntersectionMsg, t) := by
    cases fmdIds with
    | none =>
      rw [ctfAlignStage_none_eq t smdIds ms mf hsnd hfnd, if_pos hempty]
    | some fm =>
      rw [ctfAlignStage_some_eq t smdIds fm ms mf hsnd hfnd,
        if_neg (hfne fm rfl), if_pos hempty]
  exact ⟨by simp [ctfHelperRun, hstage], by decide, by decide⟩

/-- Witness for C2 at a concrete input: a one-sample table whose sample id
is absent from the metadata index. -/
theorem ctf_c2_witness :
    ctfHelperRun (BTable.mk ["f1"] ["s1"] [[3]]) ["x1"] none 0 0
        (fun _ => (0 : Nat))
      = (Except.error emptySampleIntersectionMsg,
         BTable.mk ["f1"] ["s1"] [[3]]) ∧
    "sample-metadata".toList <:+: emptySampleIntersectionMsg.toList ∧
    "table".toList <:+: emptySampleIntersectionMsg.toList :=
  ctf_c2_empty_sample_intersection_fails (BTable.mk ["f1"] ["s1"] [[3]])
    ["x1"] none 0 0 (fun _ => (0 : Nat)) (by decide) (by decide)
    (by intro fm h; cases h) (by decide)

/-! ### Claim C3: duplicate-id validation precedes alignment -/

/-- C3: a duplicated sample id (resp. a duplicated feature id) makes
`ctf_helper` raise the corresponding duplicate-id error of lines 97-100,
with the caller's table untouched and the rest of the pipeline never run;
a table whose sample and feature ids are all distinct passes this
validation (neither duplicate-id error can be the outcome). -/
theorem ctf_c3_duplicate_id_validation {R : Type} (t : BTable)
    (smdIds : List String) (fmdIds : Option (List String)) (ms mf : Nat)
    (fit : BTable → R) :
    (¬ t.sids.Nodup →
      ctfHelperRun t smdIds fmdIds ms mf fit
        = (Except.error dupSampleMsg, t)) ∧
    (t.sids.Nodup → ¬ t.fids.Nodup →
      ctfHelperRun t smdIds fmdIds ms mf fit
        = (Except.error dupFeatureMsg, t)) ∧
    (t.sids.Nodup → t.fids.Nodup →
      ∀ e, (ctfHelperRun t smdIds fmdIds ms mf fit).1 = Except.error e →
        e ≠ dupSampleMsg ∧ e ≠ dupFeatureMsg) := by
  refine ⟨?_, ?_, ?_⟩
  · intro h
    have hstage : ctfAlignStage t smdIds fmdIds ms mf
        = (Except.error dupSampleMsg, t) := by
      unfold ctfAlignStage; rw [if_pos h]
    simp [ctfHelperRun, hstage]
  · intro hs hf
    have hstage : ctfAlignStage t smdIds fmdIds ms mf
        = (Except.error dupFeatureMsg, t) := by
      unfold ctfAlignStage; rw [if_neg (not_not_intro hs), if_pos hf]
    simp [ctfHelperRun, hstage]
  · intro hs hf e he
    have he' := ctfHelperRun_error he
    have hmem : e = emptyFeatureIntersectionMsg ∨
        e = emptySampleIntersectionMsg := by
      cases fmdIds with
      | none =>
        rw [ctfAlignStage_none_eq t smdIds ms mf hs hf] at he'
        by_cases hc : t.sids.filter (fun s => smdIds.contains s) = []
        · rw [if_pos hc] at he'
          simp at he'
          right; exact he'.symm
        · rw [if_neg hc] at he'; simp at he'
      | some fm =>
        rw [ctfAlignStage_some_eq t smdIds fm ms mf hs hf] at he'
        by_cases hcf : t.fids.filter (fun f => fm.contains f) = []
        · rw [if_pos hcf] at he'
          simp at he'
          left; exact he'.symm
        · rw [if_neg hcf] at he'
          by_cases hc : t.sids.filter (fun s => smdIds.contains s) = []
          · rw [if_pos hc] at he'
            simp at he'
            right; exact he'.symm
          · rw [if_neg hc] at he'; simp at he'
    rcases hmem with rfl | rfl <;> exact ⟨by decide, by decide⟩

/-- Witness for C3: a table with a duplicated sample id is rejected with
the duplicate-sample-id error before any alignment. -/
theorem ctf_c3_witness :
    ctfHelperRun (BTable.mk ["f1"] ["s1", "s1"] [[1, 1]]) ["s1"] none 0 0
        (fun _ => (0 : Nat))
      = (Except.error dupSampleMsg, BTable.mk ["f1"] ["s1", "s1"] [[1, 1]]) :=
  (ctf_c3_duplicate_id_validation (BTable.mk ["f1"] ["s1", "s1"] [[1, 1]])
    ["s1"] none 0 0 (fun _ => (0 : Nat))).1 (by decide)

/-! ### Claim C7: idempotence of alignment and filtering -/

/-- C7: on a duplicate-free table already aligned with the metadata
(every table id kept by the corresponding metadata index) whose sample
and feature counts all meet the minimum thresholds, the alignment and
filtering stage returns the table unchanged, and running it a second time
on the first run's output yields the identical filtered table. -/
theorem ctf_c7_alignment_idempotent (t : BTable) (smdIds : List String)
    (fmdIds : Option (List String)) (ms mf : Nat)
    (hwf : t.WF) (hsnd : t.sids.Nodup) (hfnd : t.fids.Nodup)
    (hsne : t.sids ≠ [])
    (hsm : ∀ s ∈ t.sids, smdIds.contains s = true)
    (hfm : ∀ fm, fmdIds = some fm →
      t.fids ≠ [] ∧ ∀ f ∈ t.fids, fm.contains f = true)
    (hms : ∀ c ∈ t.sampleSums, ms ≤ c)
    (hmf : ∀ c ∈ t.featureSums, mf ≤ c) :
    ctfAlignStage t smdIds fmdIds ms mf = (Except.ok t, t) ∧
    ctfAlignStage (ctfAlignStage t smdIds fmdIds ms mf).2 smdIds fmdIds
        ms mf = (Except.ok t, t) := by
  have hsfilter : t.sids.filter (fun s => smdIds.contains s) = t.sids :=
    List.filter_eq_self.mpr hsm
  have halign : ctfAlignFilter t smdIds ms mf = t := by
    unfold ctfAlignFilter
    rw [t.filterSamples_of_all_kept hwf smdIds hsm]
    exact countFilter_all_pass t hwf ms mf hms hmf
  have hfix : ctfAlignStage t smdIds fmdIds ms mf = (Except.ok t, t) := by
    cases fmdIds with
    | none =>
      rw [ctfAlignStage_none_eq t smdIds ms mf hsnd hfnd,
        if_neg (by rw [hsfilter]; exact hsne), halign]
    | some fm =>
      obtain ⟨hfnonempty, hfsub⟩ := hfm fm rfl
      have hffilter : t.fids.filter (fun f => fm.contains f) = t.fids :=
        List.filter_eq_self.mpr hfsub
      rw [ctfAlignStage_some_eq t smdIds fm ms mf hsnd hfnd,
        if_neg (by rw [hffilter]; exact hfnonempty),
        if_neg (by rw [hsfilter]; exact hsne),
        t.filterFeatures_of_all_kept hwf fm hfsub, halign]
  exact ⟨hfix, by rw [hfix]; exact hfix⟩

/-- Witness for C7: a 1-feature, 2-sample table aligned with its metadata
and meeting the count thresholds is a fixed point of the stage, twice. -/
theorem ctf_c7_witness :
    ctfAlignStage (BTable.mk ["f1"] ["s1", "s2"] [[1, 2]]) ["s1", "s2"]
        none 1 1
      = (Except.ok (BTable.mk ["f1"] ["s1", "s2"] [[1, 2]]),
         BTable.mk ["f1"] ["s1", "s2"] [[1, 2]]) ∧
    ctfAlignStage (ctfAlignStage (BTable.mk ["f1"] ["s1", "s2"] [[1, 2]])
        ["s1", "s2"] none 1 1).2 ["s1", "s2"] none 1 1
      = (Except.ok (BTable.mk ["f1"] ["s1", "s2"] [[1, 2]]),
         BTable.mk ["f1"] ["s1", "s2"] [[1, 2]]) :=
  ctf_c7_alignment_idempotent (BTable.mk ["f1"] ["s1", "s2"] [[1, 2]])
    ["s1", "s2"] none 1 1 (by decide) (by decide) (by decide) (by decide)
    (by decide) (by intro fm h; cases h) (by decide) (by decide)

/-! ### Claim C9: the caller's table is filtered in place -/

/-- C9: when validation passes, `ctf_helper`'s `inplace=True` filters leave
the caller's table object holding the aligned and count-filtered table:
the final state equals the composition of the feature-metadata
intersection filter (when supplied), the sample-metadata intersection
filter, and the minimum-count filters, so the original unfiltered state is
not preserved; every surviving sample id is an original table id kept by
the sample metadata, and every surviving feature id is an original table
id kept by the feature metadata when supplied. -/
theorem ctf_c9_table_mutated_in_place {R : Type} (t : BTable)
    (smdIds : List String) (fmdIds : Option (List String)) (ms mf : Nat)
    (fit : BTable → R)
    (hsnd : t.sids.Nodup) (hfnd : t.fids.Nodup)
    (hfne : ∀ fm, fmdIds = some fm →
      t.fids.filter (fun f => fm.contains f) ≠ [])
    (hsne : t.sids.filter (fun s => smdIds.contains s) ≠ []) :
    (ctfHelperRun t smdIds fmdIds ms mf fit).2
        = alignedFilteredTable t smdIds fmdIds ms mf ∧
    (ctfHelperRun t smdIds fmdIds ms mf fit).1
        = Except.ok (fit (alignedFilteredTable t smdIds fmdIds ms mf)) ∧
    (∀ s ∈ (ctfHelperRun t smdIds fmdIds ms mf fit).2.sids,
        s ∈ t.sids ∧ smdIds.contains s = true) ∧
    (∀ f ∈ (ctfHelperRun t smdIds fmdIds ms mf fit).2.fids,
        f ∈ t.fids ∧ ∀ fm, fmdIds = some fm → fm.contains f = true) := by
  have hstage : ctfAlignStage t smdIds fmdIds ms mf
      = (Except.ok (alignedFilteredTable t smdIds fmdIds ms mf),
         alignedFilteredTable t smdIds fmdIds ms mf) := by
    cases fmdIds with
    | none =>
      rw [ctfAlignStage_none_eq t smdIds ms mf hsnd hfnd, if_neg hsne]
      rfl
    | some fm =>
      rw [ctfAlignStage_some_eq t smdIds fm ms mf hsnd hfnd,
        if_neg (hfne fm rfl), if_neg hsne]
      rfl
  have hrun : ctfHelperRun t smdIds fmdIds ms mf fit
      = (Except.ok (fit (alignedFilteredTable t smdIds fmdIds ms mf)),
         alignedFilteredTable t smdIds fmdIds ms mf) := by
    simp [ctfHelperRun, hstage]
  refine ⟨by rw [hrun], by rw [hrun], ?_, ?_⟩
  · intro s hsmem
    rw [hrun] at hsmem
    simp only at hsmem
    cases fmdIds with
    | none =>
      simp only [alignedFilteredTable, ctfAlignFilter] at hsmem
      have h1 := countFilter_sids_subset hsmem
      rw [BTable.filterSamples_sids] at h1
      simpa using List.mem_filter.mp h1
    | some fm =>
      simp only [alignedFilteredTable, ctfAlignFilter] at hsmem
      have h1 := countFilter_sids_subset hsmem
      rw [BTable.filterSamples_sids] at h1
      have h2 := List.mem_filter.mp h1
      exact ⟨h2.1, h2.2⟩
  · intro f hfmem
    rw [hrun] at hfmem
    simp only at hfmem
    cases fmdIds with
    | none =>
      simp only [alignedFilteredTable, ctfAlignFilter] at hfmem
      have h1 := countFilter_fids_subset hfmem
      exact ⟨h1, by intro fm h; cases h⟩
    | some fm =>
      simp only [alignedFilteredTable, ctfAlignFilter] at hfmem
      have h1 := countFilter_fids_subset hfmem
      rw [show (((t.filterFeatures fm).filterSamples smdIds)).fids
          = (t.filterFeatures fm).fids from rfl,
        BTable.filterFeatures_fids] at h1
      have h2 := List.mem_filter.mp h1
      exact ⟨h2.1, by intro fm' h; cases h; exact h2.2⟩

/-- Witness for C9: a table with one low-count sample and one metadata-less
sample; after the call the caller's table has lost both, showing the
in-place filtering. -/
theorem ctf_c9_witness :
    (ctfHelperRun (BTable.mk ["f1"] ["s1", "s2", "s3"] [[5, 1, 7]])
        ["s1", "s2"] none 2 1 (fun _ => (0 : Nat))).2
      = alignedFilteredTable (BTable.mk ["f1"] ["s1", "s2", "s3"] [[5, 1, 7]])
          ["s1", "s2"] none 2 1 ∧
    alignedFilteredTable (BTable.mk ["f1"] ["s1", "s2", "s3"] [[5, 1, 7]])
        ["s1", "s2"] none 2 1
      = BTable.mk ["f1"] ["s1"] [[5]] := by
  refine ⟨(ctf_c9_table_mutated_in_place
    (BTable.mk ["f1"] ["s1", "s2", "s3"] [[5, 1, 7]]) ["s1", "s2"] none 2 1
    (fun _ => (0 : Nat)) (by decide) (by decide)
    (by intro fm h; cases h) (by decide)).1, by decide⟩


/-! ### Claim C10: auxiliary metadata column dropping -/

/-- C10: in the raw-DataFrame path an auxiliary metadata column survives
iff it is not of bool dtype and contains the string 'True' exactly when it
contains the string 'False' — so a column with one of the two strings but
not the other is dropped, and a column containing both is retained; in the
pre-validated Metadata path no auxiliary column is dropped. -/
theorem ctf_c10_aux_column_drop_rule (cols : List MetaCol) :
    (∀ c, c ∈ dropBoolLikeCols cols ↔
      c ∈ cols ∧ c.isBoolDtype = false ∧
        c.hasTrueString = c.hasFalseString) ∧
    auxColsMetadataPath cols = cols := by
  refine ⟨fun c => ?_, rfl⟩
  simp only [dropBoolLikeCols, List.mem_filter]
  constructor
  · rintro ⟨⟨hc, hb⟩, hx⟩
    refine ⟨hc, by simpa using hb, ?_⟩
    simpa [bne] using hx
  · rintro ⟨hc, hb, hx⟩
    exact ⟨⟨hc, by simp [hb]⟩, by simp [bne, hx]⟩

/-! ### Claim C8: the phylogenetic-rclr subcommand -/

/-- C8 (code evaluation at the failing input): the `phylogenetic-rclr`
subcommand can never run its body — click passes the tree path as keyword
`in_phylogeny` (derived from the declared `--in-phylogeny` option), which
is not a parameter of `standalone_phylogenetic_rclr` (the parameter is
`in_tree`), so every invocation raises a TypeError before any file is
read or written. -/
theorem ctf_c8_phylogenetic_rclr_invocation_fails
    (biomPath treePath outDir : String) :
    invokePhylogeneticRclr biomPath treePath outDir
      = Except.error "TypeError: unexpected keyword argument in_phylogeny" ∧
    phyloRclrFnParams.contains (clickParamName "--in-phylogeny") = false := by
  exact ⟨rfl, by decide⟩

/-! ### Claim C1: the PC3 special case -/

/-- C1: when the factorization was run with `n_components = 2` (so each
output has axes PC1, PC2), the post-fit step appends a third all-zero axis
`PC3` to the subject loadings, the feature loadings, the proportion
explained and the eigenvalues, leaving each with exactly the three axes
PC1, PC2, PC3; for every other number of components nothing is appended. -/
theorem ctf_c1_pc3_special_case (n : Nat) (tf : TFLabeled)
    (hs : tf.subjects.cols = pcCols n) (hf : tf.features.cols = pcCols n)
    (hp : tf.propExp.map Prod.fst = pcCols n)
    (he : tf.eigvals.map Prod.fst = pcCols n) :
    (n = 2 →
      (addPC3IfTwo n tf).subjects.cols = ["PC1", "PC2", "PC3"] ∧
      (∀ r ∈ (addPC3IfTwo n tf).subjects.rows,
        r.getLast? = some (Cell.num 0)) ∧
      (addPC3IfTwo n tf).features.cols = ["PC1", "PC2", "PC3"] ∧
      (∀ r ∈ (addPC3IfTwo n tf).features.rows,
        r.getLast? = some (Cell.num 0)) ∧
      (addPC3IfTwo n tf).propExp = tf.propExp ++ [("PC3", 0)] ∧
      (addPC3IfTwo n tf).eigvals = tf.eigvals ++ [("PC3", 0)] ∧
      (addPC3IfTwo n tf).propExp.map Prod.fst = ["PC1", "PC2", "PC3"] ∧
      (addPC3IfTwo n tf).eigvals.map Prod.fst = ["PC1", "PC2", "PC3"]) ∧
    (n ≠ 2 → addPC3IfTwo n tf = tf) := by
  have hpc2 : pcCols 2 = ["PC1", "PC2"] := by decide
  constructor
  · rintro rfl
    have haddp : addPC3IfTwo 2 tf = TFLabeled.mk
        (tf.subjects.addZeroCol "PC3") (tf.features.addZeroCol "PC3")
        (seriesSetLoc tf.propExp "PC3" 0)
        (seriesSetLoc tf.eigvals "PC3" 0) := by
      simp [addPC3IfTwo]
    have hsetp : seriesSetLoc tf.propExp "PC3" 0
        = tf.propExp ++ [("PC3", 0)] := by
      have hc : (tf.propExp.map Prod.fst).contains "PC3" = false := by
        rw [hp, hpc2]; decide
      unfold seriesSetLoc
      rw [if_neg (by rw [hc]; simp)]
    have hsete : seriesSetLoc tf.eigvals "PC3" 0
        = tf.eigvals ++ [("PC3", 0)] := by
      have hc : (tf.eigvals.map Prod.fst).contains "PC3" = false := by
        rw [he, hpc2]; decide
      unfold seriesSetLoc
      rw [if_neg (by rw [hc]; simp)]
    rw [haddp]
    refine ⟨?_, ?_, ?_, ?_, hsetp, hsete, ?_, ?_⟩
    · simp [Frame.addZeroCol, hs, hpc2]
    · intro r hr
      simp only [Frame.addZeroCol, List.mem_map] at hr
      obtain ⟨r0, _, rfl⟩ := hr
      exact List.getLast?_concat r0
    · simp [Frame.addZeroCol, hf, hpc2]
    · intro r hr
      simp only [Frame.addZeroCol, List.mem_map] at hr
      obtain ⟨r0, _, rfl⟩ := hr
      exact List.getLast?_concat r0
    · simp [hsetp, hp, hpc2]
    · simp [hsete, he, hpc2]
  · intro hne
    simp [addPC3IfTwo, hne]

/-- Witness for C1 at a concrete two-component output: the PC3 axis is
appended to all four outputs. -/
theorem ctf_c1_witness :
    (addPC3IfTwo 2 tfExample).subjects.cols = ["PC1", "PC2", "PC3"] ∧
    (∀ r ∈ (addPC3IfTwo 2 tfExample).subjects.rows,
      r.getLast? = some (Cell.num 0)) ∧
    (addPC3IfTwo 2 tfExample).features.cols = ["PC1", "PC2", "PC3"] ∧
    (∀ r ∈ (addPC3IfTwo 2 tfExample).features.rows,
      r.getLast? = some (Cell.num 0)) ∧
    (addPC3IfTwo 2 tfExample).propExp = tfExample.propExp ++ [("PC3", 0)] ∧
    (addPC3IfTwo 2 tfExample).eigvals = tfExample.eigvals ++ [("PC3", 0)] ∧
    (addPC3IfTwo 2 tfExample).propExp.map Prod.fst
      = ["PC1", "PC2", "PC3"] ∧
    (addPC3IfTwo 2 tfExample).eigvals.map Prod.fst
      = ["PC1", "PC2", "PC3"] :=
  (ctf_c1_pc3_special_case 2 tfExample (by decide) (by decide) (by decide)
    (by decide)).1 rfl

/-! ### Claim C5: the ordination package -/

/-- Counterexample to C5 as stated: the code performs no de-duplication of
the loading tables — on a subject table with two identical rows the
packaged ordination differs from the spec-described (de-duplicated)
packaging. -/
theorem ctf_c5_counterexample :
    makeOrdination tfDupRowsExample ≠ makeOrdinationSpecC5 tfDupRowsExample := by
  decide

/-- C5 amended: the ordination package contains the eigenvalues and the
proportion explained as produced, and the subject and feature loading
tables restricted to the principal-coordinate columns (those whose label
contains `PC`, taken from the feature-loading columns) with every row
containing a missing value dropped, each table processed independently; no
de-duplication is performed. -/
theorem ctf_c5_ordination_packaging (tf : TFLabeled) :
    (makeOrdination tf).eigvals = tf.eigvals ∧
    (makeOrdination tf).propExp = tf.propExp ∧
    (makeOrdination tf).samples.cols
      = tf.features.cols.filter containsSubstrPC ∧
    (makeOrdination tf).features.cols
      = tf.features.cols.filter containsSubstrPC ∧
    (∀ r ∈ (makeOrdination tf).samples.rows, Cell.na ∉ r) ∧
    (∀ r ∈ (makeOrdination tf).features.rows, Cell.na ∉ r) ∧
    (makeOrdination tf).samples.rows
      = (tf.subjects.selectCols (keepPC tf.features.cols)).rows.filter
          (fun r => ! r.contains Cell.na) ∧
    (makeOrdination tf).features.rows
      = (tf.features.selectCols (keepPC tf.features.cols)).rows.filter
          (fun r => ! r.contains Cell.na) := by
  have hrows : ∀ g : Frame, g.dropNaRows.rows
      = g.rows.filter (fun r => ! r.contains Cell.na) := by
    intro g
    simp [Frame.dropNaRows, maskFilter_map]
  have hnomem : ∀ (g : Frame) r, r ∈ g.dropNaRows.rows → Cell.na ∉ r := by
    intro g r hr
    rw [hrows] at hr
    have h2 := (List.mem_filter.mp hr).2
    simpa using h2
  refine ⟨rfl, rfl, rfl, rfl, ?_, ?_, ?_, ?_⟩
  · exact fun r hr => hnomem _ r hr
  · exact fun r hr => hnomem _ r hr
  · exact hrows _
  · exact hrows _

/-! ### Claim C4: per-state distance-matrix slicing -/

theorem lastIndexOfAux_not_mem {x : String} :
    ∀ (l : List String) (i acc : Nat), x ∉ l →
      lastIndexOfAux x l i acc = acc := by
  intro l
  induction l with
  | nil => intro i acc _; rfl
  | cons a tl ih =>
    intro i acc hx
    have hax : (a == x) = false := by
      simp only [beq_eq_false_iff_ne]
      intro h
      exact hx (by simp [h])
    simp only [lastIndexOfAux, hax, Bool.false_eq_true, if_false]
    exact ih (i + 1) acc (fun h => hx (List.mem_cons_of_mem a h))

theorem lastIndexOfAux_shift {x : String} :
    ∀ (l : List String) (i acc acc2 : Nat), x ∈ l →
      lastIndexOfAux x l (i + 1) acc = lastIndexOfAux x l i acc2 + 1 := by
  intro l
  induction l with
  | nil => intro i acc acc2 h; cases h
  | cons a tl ih =>
    intro i acc acc2 hx
    by_cases hmem : x ∈ tl
    · simp only [lastIndexOfAux]
      exact ih (i + 1) _ _ hmem
    · have hxa : x = a := by
        rcases List.mem_cons.mp hx with h | h
        · exact h
        · exact absurd h hmem
      subst hxa
      have e1 : lastIndexOfAux x (x :: tl) (i + 1) acc
          = lastIndexOfAux x tl (i + 1 + 1) (i + 1) := by
        simp [lastIndexOfAux]
      have e2 : lastIndexOfAux x (x :: tl) i acc2
          = lastIndexOfAux x tl (i + 1) i := by
        simp [lastIndexOfAux]
      rw [e1, e2, lastIndexOfAux_not_mem tl _ _ hmem,
        lastIndexOfAux_not_mem tl _ _ hmem]

theorem filter_map_succ_range (p : String → Bool) (a : String)
    (tl : List String) :
    ((List.range tl.length).map Nat.succ).filter
        (fun i => p ((a :: tl).getD i ""))
      = ((List.range tl.length).filter (fun i => p (tl.getD i ""))).map
          Nat.succ := by
  rw [List.filter_map]
  congr 1

theorem map_lastIndexOf_filter (p : String → Bool) :
    ∀ ids : List String, ids.Nodup →
      (ids.filter p).map (fun x => lastIndexOf ids x)
        = (List.range ids.length).filter (fun i => p (ids.getD i "")) := by
  intro ids
  induction ids with
  | nil => intro _; rfl
  | cons a tl ih =>
    intro hnd
    have ha : a ∉ tl := (List.nodup_cons.mp hnd).1
    have htl : tl.Nodup := (List.nodup_cons.mp hnd).2
    have h0 : lastIndexOf (a :: tl) a = 0 := by
      have e : lastIndexOfAux a (a :: tl) 0 0 = lastIndexOfAux a tl 1 0 := by
        simp [lastIndexOfAux]
      unfold lastIndexOf
      rw [e, lastIndexOfAux_not_mem tl _ _ ha]
    have hsucc : ∀ x ∈ tl, lastIndexOf (a :: tl) x = lastIndexOf tl x + 1 := by
      intro x hx
      unfold lastIndexOf
      have e : lastIndexOfAux x (a :: tl) 0 0 = lastIndexOfAux x tl 1 0 := by
        simp [lastIndexOfAux]
      rw [e]
      exact lastIndexOfAux_shift tl 0 _ _ hx
    have htail : (tl.filter p).map (fun x => lastIndexOf (a :: tl) x)
        = ((List.range tl.length).map Nat.succ).filter
            (fun i => p ((a :: tl).getD i "")) := by
      rw [filter_map_succ_range, ← ih htl, List.map_map]
      apply List.map_congr_left
      intro x hx
      simp only [Function.comp]
      exact hsucc x (List.mem_filter.mp hx).1
    rw [List.length_cons, List.range_succ_eq_map,
      List.filter_cons, List.filter_cons]
    by_cases hpa : p a
    · rw [if_pos (by simpa using hpa),
        if_pos (by simpa using hpa)]
      simp only [List.map_cons, h0]
      rw [htail]
    · rw [if_neg (by simpa using hpa),
        if_neg (by simpa using hpa)]
      exact htail

theorem map_getD_filter_range (p : String → Bool) :
    ∀ ids : List String,
      ((List.range ids.length).filter (fun i => p (ids.getD i ""))).map
          (fun i => ids.getD i "")
        = ids.filter p := by
  intro ids
  induction ids with
  | nil => rfl
  | cons a tl ih =>
    have htail :
        (((List.range tl.length).map Nat.succ).filter
            (fun i => p ((a :: tl).getD i ""))).map
          (fun i => (a :: tl).getD i "")
        = tl.filter p := by
      rw [filter_map_succ_range, List.map_map, ← ih]
      apply List.map_congr_left
      intro i _
      simp [Function.comp]
    rw [List.length_cons, List.range_succ_eq_map,
      List.filter_cons, List.filter_cons]
    by_cases hpa : p a
    · rw [if_pos (by simpa using hpa), if_pos (by simpa using hpa)]
      simp only [List.map_cons, List.getD_cons_zero]
      rw [htail]
    · rw [if_neg (by simpa using hpa), if_neg (by simpa using hpa)]
      exact htail

/-- Counterexample to C4 as stated: with a trajectory index that is not
alphabetically sorted (the index order comes from the tensor builder, an
external collaborator), the retained id list comes out in trajectory-index
order — here `["s2", "s1"]` — and not in ascending id order. -/
theorem ctf_c4_counterexample :
    sliceDistanceIds ["s2", "s1"] ["s1", "s2"] = ["s2", "s1"] ∧
    ¬ List.Sorted (fun a b : String => a ≤ b)
        (sliceDistanceIds ["s2", "s1"] ["s1", "s2"]) := by
  have h : sliceDistanceIds ["s2", "s1"] ["s1", "s2"] = ["s2", "s1"] := by
    decide
  refine ⟨h, ?_⟩
  rw [h]
  intro hcon
  have h21 : ("s2" : String) ≤ "s1" :=
    (List.sorted_cons.mp hcon).1 "s1" (by simp)
  rw [String.le_iff_toList_le] at h21
  exact absurd h21 (by decide)

/-- C4 amended: for each state, the per-state distance matrix is the fitted
subject-distance matrix restricted to exactly the subject ids common to the
subject-trajectory output and the retained sample metadata, with the kept
positions in ascending position order — i.e. the ids appear in
trajectory-index order (which is ascending id order exactly when the
trajectory index itself is sorted ascending); the sliced matrix is square
with one row and one column per retained id. -/
theorem ctf_c4_distance_slicing (strajIds mdIds : List String)
    (dist : List (List Rat)) (hnd : strajIds.Nodup) :
    sliceDistanceIds strajIds mdIds
      = strajIds.filter (fun x => mdIds.contains x) ∧
    (List.Sorted (fun a b : String => a ≤ b) strajIds →
      List.Sorted (fun a b : String => a ≤ b)
        (sliceDistanceIds strajIds mdIds)) ∧
    sliceIndices strajIds mdIds
      = (List.range strajIds.length).filter
          (fun i => mdIds.contains (strajIds.getD i "")) ∧
    (sliceDistanceMatrix dist strajIds mdIds).length
      = (strajIds.filter (fun x => mdIds.contains x)).length ∧
    (∀ row ∈ sliceDistanceMatrix dist strajIds mdIds,
      row.length = (strajIds.filter (fun x => mdIds.contains x)).length) := by
  have hP : (strajIds.dedup.filter (fun x => mdIds.contains x)).map
      (fun x => lastIndexOf strajIds x)
      = (List.range strajIds.length).filter
          (fun i => mdIds.contains (strajIds.getD i "")) := by
    rw [hnd.dedup]
    exact map_lastIndexOf_filter _ strajIds hnd
  have hsortedR : List.Sorted (· ≤ ·)
      ((List.range strajIds.length).filter
        (fun i => mdIds.contains (strajIds.getD i ""))) :=
    (List.Pairwise.filter _ (List.pairwise_lt_range _)).imp le_of_lt
  have hidx : sliceIndices strajIds mdIds
      = (List.range strajIds.length).filter
          (fun i => mdIds.contains (strajIds.getD i "")) := by
    unfold sliceIndices
    rw [hP]
    exact hsortedR.insertionSort_eq
  have hids : sliceDistanceIds strajIds mdIds
      = strajIds.filter (fun x => mdIds.contains x) := by
    unfold sliceDistanceIds
    rw [hidx]
    exact map_getD_filter_range _ strajIds
  refine ⟨hids, ?_, hidx, ?_, ?_⟩
  · intro hst
    rw [hids]
    exact List.Pairwise.filter _ hst
  · have hlen : (sliceDistanceMatrix dist strajIds mdIds).length
        = (sliceIndices strajIds mdIds).length := by
      unfold sliceDistanceMatrix
      simp
    rw [hlen, ← hids]
    unfold sliceDistanceIds
    simp
  · intro row hrow
    unfold sliceDistanceMatrix at hrow
    obtain ⟨i, _, rfl⟩ := List.mem_map.mp hrow
    rw [← hids]
    unfold sliceDistanceIds
    simp

/-- Witness for C4 at a concrete input: three subjects, metadata retaining
two of them; the kept ids are the common ids in trajectory order and the
sliced matrix is 2 by 2. -/
theorem ctf_c4_witness :
    sliceDistanceIds ["s1", "s2", "s3"] ["s3", "s1"]
      = ["s1", "s2", "s3"].filter
          (fun x => (["s3", "s1"] : List String).contains x) ∧
    (List.Sorted (fun a b : String => a ≤ b) ["s1", "s2", "s3"] →
      List.Sorted (fun a b : String => a ≤ b)
        (sliceDistanceIds ["s1", "s2", "s3"] ["s3", "s1"])) ∧
    sliceIndices ["s1", "s2", "s3"] ["s3", "s1"]
      = (List.range (["s1", "s2", "s3"] : List String).length).filter
          (fun i => (["s3", "s1"] : List String).contains
            ((["s1", "s2", "s3"] : List String).getD i "")) ∧
    (sliceDistanceMatrix [[0, 1, 2], [1, 0, 3], [2, 3, 0]]
        ["s1", "s2", "s3"] ["s3", "s1"]).length
      = (["s1", "s2", "s3"].filter
          (fun x => (["s3", "s1"] : List String).contains x)).length ∧
    (∀ row ∈ sliceDistanceMatrix [[0, 1, 2], [1, 0, 3], [2, 3, 0]]
        ["s1", "s2", "s3"] ["s3", "s1"],
      row.length = (["s1", "s2", "s3"].filter
          (fun x => (["s3", "s1"] : List String).contains x)).length) :=
  ctf_c4_distance_slicing ["s1", "s2", "s3"] ["s3", "s1"]
    [[0, 1, 2], [1, 0, 3], [2, 3, 0]] (by decide)

/-! ### Claim C6: trajectory assembly -/

/-- C6: for pandas-valid frames (duplicate-free indexes, rectangular
trajectory rows, no missing loading values), the merged subject trajectory
is the subject loadings joined by identifier with the retained auxiliary
metadata columns: its ids are exactly those common to the trajectory index
and the metadata index — every id lacking a trajectory row is dropped —
arranged in ascending id order (`concat(..., sort=True)` sorts the row
index), each row carrying that id's loading cells followed by its
auxiliary cells; the index is renamed `#SampleID`, and the
feature-trajectory index identifiers are the string conversions of the
original labels. -/
theorem ctf_c6_trajectory_merge (straj aux : Frame)
    (_hnd : straj.index.Nodup) (_hauxnd : aux.index.Nodup)
    (hlens : straj.rows.length = straj.index.length)
    (_hlena : aux.rows.length = aux.index.length)
    (hrowlen : ∀ r ∈ straj.rows, r.length = straj.cols.length)
    (hnona : ∀ r ∈ straj.rows, Cell.na ∉ r)
    (hcne : straj.cols ≠ []) :
    (mergeTrajectory straj aux).indexName = "#SampleID" ∧
    (mergeTrajectory straj aux).cols = straj.cols ++ aux.cols ∧
    (mergeTrajectory straj aux).index
      = (List.insertionSort (· ≤ ·) aux.index).filter
          (fun i => straj.index.contains i) ∧
    List.Sorted (fun a b : String => a ≤ b)
      (mergeTrajectory straj aux).index ∧
    (∀ i, i ∈ (mergeTrajectory straj aux).index ↔
      i ∈ aux.index ∧ i ∈ straj.index) ∧
    (mergeTrajectory straj aux).rows
      = ((mergeTrajectory straj aux).index).map (fun i =>
          straj.rows.getD (straj.index.indexOf i)
            (straj.cols.map (fun _ => Cell.na))
          ++ aux.rows.getD (aux.index.indexOf i)
            (aux.cols.map (fun _ => Cell.na))) ∧
    (∀ idx : List FeatLabel, astypeStrIndex idx = idx.map FeatLabel.toStr)
    := by
  -- an all-kept row passes the NaN check on the loading columns
  have KK : ∀ (r arow : List Cell), r.length = straj.cols.length →
      Cell.na ∉ r →
      straj.cols.all (fun c =>
        !((r ++ arow).getD ((straj.cols ++ aux.cols).indexOf c) Cell.na
          == Cell.na)) = true := by
    intro r arow hrl hnar
    rw [List.all_eq_true]
    intro c hc
    have hj : (straj.cols ++ aux.cols).indexOf c = straj.cols.indexOf c :=
      indexOf_append_left _ _ hc
    have hjlt : straj.cols.indexOf c < r.length := by
      rw [hrl]; exact List.indexOf_lt_length.mpr hc
    rw [hj, List.getD_append _ _ _ _ hjlt, List.getD_eq_getElem _ _ hjlt]
    have hmem : r[straj.cols.indexOf c] ∈ r := List.getElem_mem hjlt
    have hne : r[straj.cols.indexOf c] ≠ Cell.na := fun he => hnar (he ▸ hmem)
    rw [beq_eq_false_iff_ne.mpr hne]
    rfl
  -- an all-NaN row fails the NaN check on the loading columns
  have KF : ∀ arow : List Cell,
      straj.cols.all (fun c =>
        !(((straj.cols.map (fun _ => Cell.na)) ++ arow).getD
          ((straj.cols ++ aux.cols).indexOf c) Cell.na == Cell.na))
        = false := by
    intro arow
    obtain ⟨c0, hc0⟩ := List.exists_mem_of_ne_nil _ hcne
    rw [Bool.eq_false_iff]
    intro hall
    rw [List.all_eq_true] at hall
    have hx := hall c0 hc0
    have hj : (straj.cols ++ aux.cols).indexOf c0 = straj.cols.indexOf c0 :=
      indexOf_append_left _ _ hc0
    have hjlt : straj.cols.indexOf c0
        < (straj.cols.map (fun _ => Cell.na)).length := by
      rw [List.length_map]; exact List.indexOf_lt_length.mpr hc0
    rw [hj, List.getD_append _ _ _ _ hjlt,
      List.getD_eq_getElem _ _ hjlt] at hx
    simp [List.getElem_map] at hx
  -- the concatenated rows: one row per sorted index label, the loading
  -- lookup joined to the auxiliary row for that label
  have hconcrows : ((straj.reindexTo aux.index).hconcat aux).rows
      = (List.insertionSort (· ≤ ·) aux.index).map (fun i =>
          (if straj.index.contains i then
            straj.rows.getD (straj.index.indexOf i)
              (straj.cols.map (fun _ => Cell.na))
          else straj.cols.map (fun _ => Cell.na))
          ++ aux.rows.getD (aux.index.indexOf i)
            (aux.cols.map (fun _ => Cell.na))) := by
    simp only [Frame.hconcat, Frame.reindexTo]
    apply List.map_congr_left
    intro i hi
    have hmem : i ∈ aux.index :=
      (List.perm_insertionSort _ _).mem_iff.mp hi
    rw [getD_map_indexOf _ _ _ _ hmem]
  -- pointwise: the kept mask equals membership of the id in the
  -- trajectory index
  have K : ∀ i ∈ List.insertionSort (· ≤ ·) aux.index,
      straj.cols.all (fun c =>
        !(((if straj.index.contains i then
              straj.rows.getD (straj.index.indexOf i)
                (straj.cols.map (fun _ => Cell.na))
            else straj.cols.map (fun _ => Cell.na))
          ++ aux.rows.getD (aux.index.indexOf i)
            (aux.cols.map (fun _ => Cell.na))).getD
          ((straj.cols ++ aux.cols).indexOf c) Cell.na == Cell.na))
        = straj.index.contains i := by
    intro i _
    cases hb : straj.index.contains i with
    | false =>
      rw [if_neg (by simp)]
      exact KF _
    | true =>
      rw [if_pos rfl]
      have hi : i ∈ straj.index := by simpa using hb
      have hk : straj.index.indexOf i < straj.rows.length := by
        rw [hlens]; exact List.indexOf_lt_length.mpr hi
      have hmem : straj.rows.getD (straj.index.indexOf i)
          (straj.cols.map (fun _ => Cell.na)) ∈ straj.rows := by
        rw [List.getD_eq_getElem _ _ hk]
        exact List.getElem_mem hk
      exact KK _ _ (hrowlen _ hmem) (hnona _ hmem)
  have hkeep : (((straj.reindexTo aux.index).hconcat aux).rows).map
      (fun r => straj.cols.all (fun c =>
        !(r.getD
          (((straj.reindexTo aux.index).hconcat aux).cols.indexOf c)
          Cell.na == Cell.na)))
      = (List.insertionSort (· ≤ ·) aux.index).map
          (fun i => straj.index.contains i) := by
    rw [hconcrows, List.map_map]
    exact List.map_congr_left K
  have h3 : (mergeTrajectory straj aux).index
      = (List.insertionSort (· ≤ ·) aux.index).filter
          (fun i => straj.index.contains i) := by
    have hproj : (mergeTrajectory straj aux).index
        = maskFilter (List.insertionSort (· ≤ ·) aux.index)
            ((((straj.reindexTo aux.index).hconcat aux).rows).map
              (fun r => straj.cols.all (fun c =>
                !(r.getD
                  (((straj.reindexTo aux.index).hconcat aux).cols.indexOf c)
                  Cell.na == Cell.na)))) := rfl
    rw [hproj, hkeep, maskFilter_map]
  refine ⟨rfl, rfl, h3, ?_, ?_, ?_, fun idx => rfl⟩
  · -- the merged index is sorted ascending
    rw [h3]
    exact List.Pairwise.filter _ (List.sorted_insertionSort _ _)
  · -- the merged ids are exactly the common ids
    intro i
    rw [h3, List.mem_filter]
    constructor
    · rintro ⟨hiS, hc⟩
      exact ⟨(List.perm_insertionSort _ _).mem_iff.mp hiS, by simpa using hc⟩
    · rintro ⟨hia, his⟩
      exact ⟨(List.perm_insertionSort _ _).mem_iff.mpr hia, by simpa using his⟩
  · -- the merged rows pair each kept id's loading and auxiliary cells
    have hproj2 : (mergeTrajectory straj aux).rows
        = maskFilter (((straj.reindexTo aux.index).hconcat aux).rows)
            ((((straj.reindexTo aux.index).hconcat aux).rows).map
              (fun r => straj.cols.all (fun c =>
                !(r.getD
                  (((straj.reindexTo aux.index).hconcat aux).cols.indexOf c)
                  Cell.na == Cell.na)))) := rfl
    rw [hproj2, hkeep, hconcrows, maskFilter_map_map, h3]
    apply List.map_congr_left
    intro i hi
    have hic : straj.index.contains i = true := (List.mem_filter.mp hi).2
    rw [if_pos hic]

/-- Witness for C6 at a concrete input with an unsorted metadata index:
subject `a` is in both the trajectory and the auxiliary metadata, `b` only
in the trajectory, `c` only in the metadata; the merge keeps exactly `a`
(in sorted id order), joining its loading and metadata cells under the
`#SampleID` index name. -/
theorem ctf_c6_witness :
    (mergeTrajectory
        (Frame.mk "" ["b", "a"] ["PC1"] [[Cell.num 1], [Cell.num 2]])
        (Frame.mk "" ["c", "a"] ["grp"]
          [[Cell.str "y"], [Cell.str "x"]])).indexName = "#SampleID" ∧
    (mergeTrajectory
        (Frame.mk "" ["b", "a"] ["PC1"] [[Cell.num 1], [Cell.num 2]])
        (Frame.mk "" ["c", "a"] ["grp"]
          [[Cell.str "y"], [Cell.str "x"]])).cols = ["PC1"] ++ ["grp"] ∧
    (mergeTrajectory
        (Frame.mk "" ["b", "a"] ["PC1"] [[Cell.num 1], [Cell.num 2]])
        (Frame.mk "" ["c", "a"] ["grp"]
          [[Cell.str "y"], [Cell.str "x"]])).index
      = (List.insertionSort (· ≤ ·) ["c", "a"]).filter
          (fun i => (["b", "a"] : List String).contains i) ∧
    List.Sorted (fun a b : String => a ≤ b)
      (mergeTrajectory
        (Frame.mk "" ["b", "a"] ["PC1"] [[Cell.num 1], [Cell.num 2]])
        (Frame.mk "" ["c", "a"] ["grp"]
          [[Cell.str "y"], [Cell.str "x"]])).index ∧
    (∀ i, i ∈ (mergeTrajectory
        (Frame.mk "" ["b", "a"] ["PC1"] [[Cell.num 1], [Cell.num 2]])
        (Frame.mk "" ["c", "a"] ["grp"]
          [[Cell.str "y"], [Cell.str "x"]])).index ↔
      i ∈ (["c", "a"] : List String) ∧ i ∈ (["b", "a"] : List String)) ∧
    (mergeTrajectory
        (Frame.mk "" ["b", "a"] ["PC1"] [[Cell.num 1], [Cell.num 2]])
        (Frame.mk "" ["c", "a"] ["grp"]
          [[Cell.str "y"], [Cell.str "x"]])).rows
      = ((mergeTrajectory
          (Frame.mk "" ["b", "a"] ["PC1"] [[Cell.num 1], [Cell.num 2]])
          (Frame.mk "" ["c", "a"] ["grp"]
            [[Cell.str "y"], [Cell.str "x"]])).index).map (fun i =>
          ([[Cell.num 1], [Cell.num 2]] : List (List Cell)).getD
            ((["b", "a"] : List String).indexOf i)
            ((["PC1"] : List String).map (fun _ => Cell.na))
          ++ ([[Cell.str "y"], [Cell.str "x"]] : List (List Cell)).getD
            ((["c", "a"] : List String).indexOf i)
            ((["grp"] : List String).map (fun _ => Cell.na))) ∧
    (∀ idx : List FeatLabel, astypeStrIndex idx = idx.map FeatLabel.toStr) :=
  ctf_c6_trajectory_merge
    (Frame.mk "" ["b", "a"] ["PC1"] [[Cell.num 1], [Cell.num 2]])
    (Frame.mk "" ["c", "a"] ["grp"] [[Cell.str "y"], [Cell.str "x"]])
    (by decide) (by decide) (by decide) (by decide) (by decide) (by decide)
    (by decide)

end Gemelli
